import Mathlib

/-!
Verification of the `argv` argument parser of the cmdkit repository.

The Go source (package `argv`) is shallowly embedded below:

* `Argv` mirrors the Go struct `Argv` (`Name`, `Sub`, `Text`, `Pairs`);
  a Go `nil` map is `none`, a `*Argv` pointer is an `Option Argv`.
* Go `strings` helpers used by the parser are modelled on `String.data`
  (`trimLeftChar` is `strings.TrimLeft` with a one-character cutset, etc.).
* `parseLoopF` is the loop body of `parseArgs` (the mutable cursor `i` is
  the suffix of the token slice still to be processed; the mutable fields
  `argd.Name` / `argd.Pairs` and the flag `withCommand` are parameters).
  A fuel argument makes the recursion structural; `parseArgs` runs the
  loop with provably sufficient fuel (`parseLoopF_no_fuelOut`).
* A Go runtime panic (index out of range) is the result `PResult.oob`.
-/

namespace Cmdkit

/-- Characters accepted by Go's `unicode.IsSpace` (used by `strings.TrimSpace`). -/
def goIsSpace (c : Char) : Bool :=
  c == ' ' || c == '\t' || c == '\n' || c == Char.ofNat 11 || c == Char.ofNat 12 ||
  c == '\r' || c == Char.ofNat 0x85 || c == Char.ofNat 0xA0 || c == Char.ofNat 0x1680 ||
  (0x2000 ≤ c.toNat && c.toNat ≤ 0x200A) || c == Char.ofNat 0x2028 ||
  c == Char.ofNat 0x2029 || c == Char.ofNat 0x202F || c == Char.ofNat 0x205F ||
  c == Char.ofNat 0x3000

/-- Go `strings.TrimLeft s (String.singleton c)`: drop every leading `c`. -/
def trimLeftChar (c : Char) (s : String) : String :=
  ⟨s.data.dropWhile (· == c)⟩

/-- Go `strings.TrimRight s (String.singleton c)`: drop every trailing `c`. -/
def trimRightChar (c : Char) (s : String) : String :=
  ⟨(s.data.reverse.dropWhile (· == c)).reverse⟩

/-- Go `strings.TrimSpace`. -/
def trimSpace (s : String) : String :=
  ⟨((s.data.dropWhile goIsSpace).reverse.dropWhile goIsSpace).reverse⟩

/-- Go `strings.HasPrefix s (String.singleton c)`. -/
def startsWithChar (c : Char) (s : String) : Bool :=
  match s.data with
  | [] => false
  | a :: _ => a == c

/-- Go `strings.HasSuffix s (String.singleton c)`. -/
def endsWithChar (c : Char) (s : String) : Bool :=
  match s.data.getLast? with
  | none => false
  | some a => a == c

/-- Go `strings.TrimPrefix s (String.singleton c)`: drop at most one leading `c`. -/
def trimPrefixChar (c : Char) (s : String) : String :=
  if startsWithChar c s then ⟨s.data.tail⟩ else s

/-- Go `strings.TrimSuffix s (String.singleton c)`: drop at most one trailing `c`. -/
def trimSuffixChar (c : Char) (s : String) : String :=
  if endsWithChar c s then ⟨s.data.dropLast⟩ else s

/-- Split a character list at every occurrence of `c` (Go `strings.Split` semantics:
the result always has at least one piece, and empty pieces are kept). -/
def splitListOn (c : Char) : List Char → List (List Char)
  | [] => [[]]
  | a :: as =>
    if a == c then
      [] :: splitListOn c as
    else
      match splitListOn c as with
      | [] => [[a]]
      | h :: t => (a :: h) :: t

/-- Go `strings.Split s (String.singleton c)`. -/
def splitOnChar (c : Char) (s : String) : List String :=
  (splitListOn c s.data).map (fun l => ⟨l⟩)

/-- Go `strings.Join l " "`. -/
def joinSpace (l : List String) : String :=
  ⟨List.intercalate [' '] (l.map String.data)⟩

/-- Split `s` at the first `'='`: Go
`if pos := strings.Index(opt, "="); pos != -1 { key = opt[:pos]; value = opt[pos+1:] }`.
Returns the two raw halves (before `strings.TrimSpace` is applied). -/
def eqSplit (s : String) : Option (String × String) :=
  match s.data.findIdx? (· == '=') with
  | none => none
  | some pos => some (⟨s.data.take pos⟩, ⟨s.data.drop (pos + 1)⟩)

/-- Go helper `isFlag`: starts with `-` and has content after stripping all `-`. -/
def isFlag (s : String) : Bool :=
  startsWithChar '-' s && trimLeftChar '-' s != ""

/-- Go helper `isIgnored`: the empty token, `-` and `--` are skipped. -/
def isIgnored (s : String) : Bool :=
  s == "" || s == "-" || s == "--"

/-- Go helper `isList`: token begins a bracketed list. -/
def isList (s : String) : Bool :=
  startsWithChar '[' s

/-- Go helper `isListEnd`: token ends a bracketed list. -/
def isListEnd (s : String) : Bool :=
  endsWithChar ']' s

/-- The parsed-argument node (Go struct `Argv`).  `Pairs` is `none` when the Go
map is `nil`; parsed nodes always carry `some` (`parseArgs` initialises it). -/
inductive Argv where
  | mk (Name : String) (Sub : Option Argv) (Text : String)
      (Pairs : Option (List (String × List String))) : Argv
deriving Repr

def Argv.Name : Argv → String
  | .mk n _ _ _ => n

def Argv.Sub : Argv → Option Argv
  | .mk _ s _ _ => s

def Argv.Text : Argv → String
  | .mk _ _ t _ => t

def Argv.Pairs : Argv → Option (List (String × List String))
  | .mk _ _ _ p => p

def Argv.decEq : (a b : Argv) → Decidable (a = b)
  | .mk n1 s1 t1 p1, .mk n2 s2 t2 p2 =>
    have ds : Decidable (s1 = s2) :=
      match s1, s2 with
      | none, none => isTrue rfl
      | none, some _ => isFalse (by simp)
      | some _, none => isFalse (by simp)
      | some a1, some b1 =>
        match Argv.decEq a1 b1 with
        | isTrue h => isTrue (by rw [h])
        | isFalse h => isFalse (by simpa using h)
    decidable_of_iff (n1 = n2 ∧ s1 = s2 ∧ t1 = t2 ∧ p1 = p2) (by rw [Argv.mk.injEq])

instance : DecidableEq Argv := Argv.decEq

/-- Go map assignment `m[k] = v`: replace an existing binding, else add one. -/
def setPair (k : String) (v : List String) : List (String × List String) →
    List (String × List String)
  | [] => [(k, v)]
  | (k0, v0) :: rest => if k0 == k then (k, v) :: rest else (k0, v0) :: setPair k v rest

/-- Go map lookup `m[k]`. -/
def lookupPair (k : String) : List (String × List String) → Option (List String)
  | [] => none
  | (k0, v0) :: rest => if k0 == k then some v0 else lookupPair k rest

/-- Outcome of `parseArgs`: a value, a returned `error` (with the partial node Go
returns beside it), a Go runtime panic (`oob`, index out of range), or exhausted
fuel (an artefact of the embedding, ruled out by `parseLoopF_no_fuelOut`). -/
inductive PResult where
  | ok (a : Argv) : PResult
  | err (a : Argv) (msg : String) : PResult
  | oob : PResult
  | fuelOut : PResult
deriving Repr, DecidableEq

/-- Go error message at line 67 of the parser ("MisplacedFlags"). -/
def misplacedMsg : String := "flags must come after command name"

/-- Go `%q` of a plain string (no escaping needed for the strings involved). -/
def goQuote (s : String) : String := "\"" ++ s ++ "\""

/-- Go error message at line 148 of the parser ("MissingFlagValue"). -/
def missingMsg (opt : String) : String :=
  "flag " ++ goQuote opt ++ " has no provided value"

/-- The scan of the Go `for i+1 < len(args) && !isFlag(args[i+1]) && !isListEnd(args[i+1])`
loop together with the unguarded `if isListEnd(args[i+1])` that follows it, acting on
the tokens after the current one.  Returns the collected elements and the number of
tokens consumed; `none` is Go's index-out-of-range panic when the input runs out
before a flag or a list-closing token is met. -/
def scanList : List String → Option (List String × Nat)
  | [] => none
  | t :: ts =>
    if !isFlag t && !isListEnd t then
      match scanList ts with
      | none => none
      | some (l, c) => some (trimSpace t :: l, c + 1)
    else if isListEnd t then
      some ([trimSpace (trimSuffixChar ']' t)], 1)
    else
      some ([], 0)

/-- Lines 107–143 of the parser: from the (already trimmed) `value` of a flag and
the following tokens, compute the collected `values` and how many further tokens
were consumed.  `none` is the runtime panic of the unguarded index. -/
def flagValues (value : String) (rest : List String) : Option (List String × Nat) :=
  if isList value then
    if isListEnd value then
      some (splitOnChar ',' (trimRightChar ']' (trimLeftChar '[' (trimSpace value))), 0)
    else
      match scanList rest with
      | none => none
      | some (tailElems, c) =>
        let before := trimSpace (trimLeftChar '[' value)
        let list := (if before != "" then [before] else []) ++ tailElems
        let items := trimSuffixChar ']' (trimPrefixChar '[' (trimSpace (joinSpace list)))
        some (splitOnChar ' ' items, c)
  else if value != "" then
    some ([value], 0)
  else
    some ([], 0)

/-- The loop of Go `parseArgs` (lines 56–192).  `toks` is `args[i:]`, `name` and
`pairs` are the mutable fields `argd.Name` / `argd.Pairs` (the map is `some pairs`
throughout, line 52), `wc` is `withCommand`.  The recursive calls to `parseArgs`
at the branch points re-enter the loop on a fresh node (`"" , [] , false`).  The
first argument is fuel making the recursion structural. -/
def parseLoopF : Nat → List String → String → List (String × List String) → Bool → PResult
  | 0, _, _, _, _ => .fuelOut
  | fuel + 1, toks, name, pairs, wc =>
    match toks with
    | [] => .ok (.mk name none "" (some pairs))
    | arg :: rest =>
      if isIgnored arg then
        parseLoopF fuel rest name pairs wc
      else if !isFlag arg && !wc then
        -- lines 65–73: capture the command name, or fail with MisplacedFlags
        if pairs.length != 0 then
          .err (.mk name none "" (some pairs)) misplacedMsg
        else
          parseLoopF fuel rest arg pairs true
      else if !isFlag arg && wc then
        -- lines 77–94: branch into a sub command, or keep a single token as Text
        if rest.isEmpty && !isFlag arg then
          .ok (.mk name none arg (some pairs))
        else
          match parseLoopF fuel (arg :: rest) "" [] false with
          | .ok sub => .ok (.mk name (some sub) (joinSpace (arg :: rest)) (some pairs))
          | .err _ msg => .err (.mk name none "" (some pairs)) msg
          | .oob => .oob
          | .fuelOut => .fuelOut
      else
        -- lines 96–189: flag processing (here `isFlag arg` holds)
        let opt := trimLeftChar '-' arg
        let hasEq := (eqSplit opt).isSome
        let key := trimSpace (match eqSplit opt with | some (k, _) => k | none => "")
        let value := trimSpace (match eqSplit opt with | some (_, v) => v | none => "")
        match flagValues value rest with
        | none => .oob
        | some (values, c) =>
          if key != "" && hasEq && values.isEmpty then
            .err (.mk name none "" (some pairs)) (missingMsg opt)
          else if key != "" && hasEq then
            parseLoopF fuel (rest.drop c) name (setPair key values pairs) wc
          else if opt != "" && key == "" && !hasEq then
            -- lines 161–169: boolean flag; `i` is rolled back to `lastIndex`
            parseLoopF fuel rest name (setPair opt ["true"] pairs) wc
          else if key == "" && !hasEq then
            -- lines 172–189: defensive fallback (unreachable: `opt` is nonempty here)
            if (arg :: rest).length == 1 && !isFlag arg then
              .ok (.mk name none arg (some pairs))
            else
              match parseLoopF fuel (arg :: rest) "" [] false with
              | .ok sub =>
                .ok (.mk name (some sub) (joinSpace ((arg :: rest).drop c)) (some pairs))
              | .err _ msg => .err (.mk name none "" (some pairs)) msg
              | .oob => .oob
              | .fuelOut => .fuelOut
          else
            parseLoopF fuel (rest.drop c) name pairs wc

/-- Fuel that `parseLoopF_no_fuelOut` proves sufficient for `toks`. -/
def enoughFuel (toks : List String) : Nat := 3 * toks.length + 3

/-- Go `parseArgs`. -/
def parseArgs (toks : List String) : PResult :=
  parseLoopF (enoughFuel toks) toks "" [] false

/-- Go `Parse`: split the raw line on single spaces and run `parseArgs`. -/
def Parse (args : String) : PResult :=
  if args.length == 0 then
    .err (.mk "" none "" none) "no argument provided"
  else
    parseArgs (splitOnChar ' ' args)

/-! ### Derived predicates used by the claims -/

/-- Value sequences of a pairs list are all non-empty. -/
def goodPairsList (l : List (String × List String)) : Bool :=
  l.all (fun p => !p.2.isEmpty)

/-- Every node of the tree has a non-`nil` `Pairs` map whose value sequences are
all non-empty (the invariants of claim C9). -/
def goodArgv : Argv → Bool
  | .mk _ sub _ pairs =>
    (match pairs with
     | none => false
     | some l => goodPairsList l) &&
    (match sub with
     | none => true
     | some s => goodArgv s)

/-- A token that is a flag and, if it carries `=`, has a non-empty key and a
non-empty non-list value: the well-formed flags of the spec. -/
def simpleFlag (t : String) : Bool :=
  isFlag t &&
    (match eqSplit (trimLeftChar '-' t) with
     | none => true
     | some (k, v) => trimSpace k != "" && trimSpace v != "" && !isList (trimSpace v))

/-! ### Basic lemmas -/

theorem isFlag_isIgnored_false {s : String} (h : isFlag s = true) : isIgnored s = false := by
  cases hi : isIgnored s
  · rfl
  · exfalso
    simp only [isIgnored, Bool.or_eq_true, beq_iff_eq] at hi
    rcases hi with (rfl | rfl) | rfl <;> simp [isFlag, startsWithChar, trimLeftChar] at h

theorem isFlag_opt_ne {t : String} (h : isFlag t = true) : trimLeftChar '-' t ≠ "" := by
  simp only [isFlag, Bool.and_eq_true, bne_iff_ne, ne_eq] at h
  exact h.2

theorem splitListOn_ne_nil (c : Char) (l : List Char) : splitListOn c l ≠ [] := by
  induction l with
  | nil => simp [splitListOn]
  | cons a as ih =>
    by_cases h : (a == c) = true
    · simp [splitListOn, h]
    · simp only [splitListOn, h]
      cases hs : splitListOn c as with
      | nil => exact absurd hs ih
      | cons x xs => simp

theorem splitOnChar_ne_nil (c : Char) (s : String) : splitOnChar c s ≠ [] := by
  simp [splitOnChar, splitListOn_ne_nil]

theorem str_data_append (a b : String) : (a ++ b).data = a.data ++ b.data := rfl

theorem missingMsg_ne_misplacedMsg (opt : String) : missingMsg opt ≠ misplacedMsg := by
  intro h
  have h4 := congrArg (fun s => s.data.get? 4) h
  simp only [missingMsg, goQuote, misplacedMsg, str_data_append] at h4
  simp at h4

theorem sub_only_from_branch : ∀ (fuel : Nat) (toks : List String) (name : String)
    (pairs : List (String × List String)) (wc : Bool) (r : Argv),
    parseLoopF fuel toks name pairs wc = .ok r →
    r.Sub = none ∨
      ∃ sub rem fuel2, r.Sub = some sub ∧ rem ≠ [] ∧ rem.IsSuffix toks ∧
        parseLoopF fuel2 rem "" [] false = .ok sub ∧ r.Text = joinSpace rem := by
  intro fuel
  induction fuel with
  | zero => intro toks name pairs wc r h; simp [parseLoopF] at h
  | succ fuel ih =>
    intro toks name pairs wc r h
    cases toks with
    | nil =>
      simp only [parseLoopF, PResult.ok.injEq] at h
      subst h
      left
      rfl
    | cons arg rest =>
      by_cases hig : isIgnored arg = true
      · simp only [parseLoopF, hig, if_pos] at h
        rcases ih _ _ _ _ _ h with hl | ⟨sub, rem, f2, h1, h2, h3, h4, h5⟩
        · exact Or.inl hl
        · exact Or.inr ⟨sub, rem, f2, h1, h2, h3.trans (List.suffix_cons arg rest), h4, h5⟩
      · by_cases hfl : isFlag arg = true
        · cases heq : eqSplit (trimLeftChar '-' arg) with
          | none =>
            simp [parseLoopF, hig, hfl, heq, show trimSpace "" = "" from rfl,
              show flagValues "" rest = some ([], 0) from rfl, isFlag_opt_ne hfl] at h
            rcases ih _ _ _ _ _ h with hl | ⟨sub, rem, f2, h1, h2, h3, h4, h5⟩
            · exact Or.inl hl
            · exact Or.inr ⟨sub, rem, f2, h1, h2, h3.trans (List.suffix_cons arg rest), h4, h5⟩
          | some kv =>
            obtain ⟨k, v⟩ := kv
            simp only [parseLoopF, hig, hfl, heq] at h
            simp at h
            cases hfv : flagValues (trimSpace v) rest with
            | none => rw [hfv] at h; exact PResult.noConfusion h
            | some vc =>
              obtain ⟨values, c⟩ := vc
              rw [hfv] at h
              simp only at h
              split at h
              · exact PResult.noConfusion h
              · split at h
                · rcases ih _ _ _ _ _ h with hl | ⟨sub, rem, f2, h1, h2, h3, h4, h5⟩
                  · exact Or.inl hl
                  · exact Or.inr ⟨sub, rem, f2, h1, h2,
                      h3.trans ((List.drop_suffix c rest).trans (List.suffix_cons arg rest)),
                      h4, h5⟩
                · rcases ih _ _ _ _ _ h with hl | ⟨sub, rem, f2, h1, h2, h3, h4, h5⟩
                  · exact Or.inl hl
                  · exact Or.inr ⟨sub, rem, f2, h1, h2,
                      h3.trans ((List.drop_suffix c rest).trans (List.suffix_cons arg rest)),
                      h4, h5⟩
        · by_cases hwc : wc = true
          · subst hwc
            cases rest with
            | nil =>
              simp [parseLoopF, hig, hfl] at h
              subst h
              left
              rfl
            | cons b bs =>
              simp only [parseLoopF, hig, hfl] at h
              simp at h
              cases hsub : parseLoopF fuel (arg :: b :: bs) "" [] false with
              | ok sub =>
                rw [hsub] at h
                simp only [PResult.ok.injEq] at h
                subst h
                right
                exact ⟨sub, arg :: b :: bs, fuel, rfl, by simp, List.suffix_refl _, hsub, rfl⟩
              | err a msg => rw [hsub] at h; exact PResult.noConfusion h
              | oob => rw [hsub] at h; exact PResult.noConfusion h
              | fuelOut => rw [hsub] at h; exact PResult.noConfusion h
          · have hwc2 : wc = false := by simpa using hwc
            subst hwc2
            simp only [parseLoopF, hig, hfl] at h
            simp at h
            split at h
            · rcases ih _ _ _ _ _ h with hl | ⟨sub, rem, f2, h1, h2, h3, h4, h5⟩
              · exact Or.inl hl
              · exact Or.inr ⟨sub, rem, f2, h1, h2, h3.trans (List.suffix_cons arg rest),
                  h4, h5⟩
            · exact PResult.noConfusion h

theorem setPair_good (k : String) (v : List String) (pairs : List (String × List String))
    (hp : goodPairsList pairs = true) (hv : v ≠ []) :
    goodPairsList (setPair k v pairs) = true := by
  induction pairs with
  | nil => simp [setPair, goodPairsList, hv]
  | cons p ps ih =>
    obtain ⟨k0, v0⟩ := p
    simp only [goodPairsList, List.all_cons, Bool.and_eq_true] at hp
    by_cases hk : (k0 == k) = true
    · simp [setPair, hk, goodPairsList, hv, hp.2]
    · simp only [setPair, hk, if_false, Bool.false_eq_true]
      simp only [goodPairsList, List.all_cons, Bool.and_eq_true]
      exact ⟨hp.1, ih hp.2⟩

theorem parseLoopF_good : ∀ (fuel : Nat) (toks : List String) (name : String)
    (pairs : List (String × List String)) (wc : Bool) (r : Argv),
    goodPairsList pairs = true → parseLoopF fuel toks name pairs wc = .ok r →
    goodArgv r = true := by
  intro fuel
  induction fuel with
  | zero => intro toks name pairs wc r _ h; simp [parseLoopF] at h
  | succ fuel ih =>
    intro toks name pairs wc r hp h
    cases toks with
    | nil =>
      simp only [parseLoopF, PResult.ok.injEq] at h
      subst h
      simp [goodArgv, hp]
    | cons arg rest =>
      by_cases hig : isIgnored arg = true
      · simp only [parseLoopF, hig, if_pos] at h
        exact ih _ _ _ _ _ hp h
      · by_cases hfl : isFlag arg = true
        · cases heq : eqSplit (trimLeftChar '-' arg) with
          | none =>
            simp [parseLoopF, hig, hfl, heq, show trimSpace "" = "" from rfl,
              show flagValues "" rest = some ([], 0) from rfl, isFlag_opt_ne hfl] at h
            exact ih _ _ _ _ _ (setPair_good _ _ _ hp (by simp)) h
          | some kv =>
            obtain ⟨k, v⟩ := kv
            simp only [parseLoopF, hig, hfl, heq] at h
            simp at h
            cases hfv : flagValues (trimSpace v) rest with
            | none => rw [hfv] at h; exact PResult.noConfusion h
            | some vc =>
              obtain ⟨values, c⟩ := vc
              rw [hfv] at h
              simp only at h
              split at h
              · exact PResult.noConfusion h
              · rename_i hg1
                split at h
                · exact ih _ _ _ _ _ hp h
                · rename_i hg2
                  have hvne : values ≠ [] := by
                    intro hv
                    exact hg1 ⟨hg2, hv⟩
                  exact ih _ _ _ _ _ (setPair_good _ _ _ hp hvne) h
        · by_cases hwc : wc = true
          · subst hwc
            cases rest with
            | nil =>
              simp [parseLoopF, hig, hfl] at h
              subst h
              simp [goodArgv, hp]
            | cons b bs =>
              simp only [parseLoopF, hig, hfl] at h
              simp at h
              cases hsub : parseLoopF fuel (arg :: b :: bs) "" [] false with
              | ok sub =>
                rw [hsub] at h
                simp only [PResult.ok.injEq] at h
                subst h
                have hgs : goodArgv sub = true := ih _ _ _ _ _ (by simp [goodPairsList]) hsub
                simp [goodArgv, hp, hgs]
              | err a msg => rw [hsub] at h; exact PResult.noConfusion h
              | oob => rw [hsub] at h; exact PResult.noConfusion h
              | fuelOut => rw [hsub] at h; exact PResult.noConfusion h
          · have hwc2 : wc = false := by simpa using hwc
            subst hwc2
            simp only [parseLoopF, hig, hfl] at h
            simp at h
            split at h
            · exact ih _ _ _ _ _ hp h
            · exact PResult.noConfusion h

theorem misplaced_origin : ∀ (fuel : Nat) (toks : List String) (name : String)
    (pairs : List (String × List String)) (wc : Bool) (a : Argv),
    parseLoopF fuel toks name pairs wc = .err a misplacedMsg →
    ∃ (arg : String) (rest : List String) (name2 : String)
      (pairs2 : List (String × List String)) (fuel2 : Nat),
      (arg :: rest).IsSuffix toks ∧ isFlag arg = false ∧ isIgnored arg = false ∧
      pairs2 ≠ [] ∧ parseLoopF (fuel2 + 1) (arg :: rest) name2 pairs2 false =
        .err (.mk name2 none "" (some pairs2)) misplacedMsg := by
  intro fuel
  induction fuel with
  | zero => intro toks name pairs wc a h; simp [parseLoopF] at h
  | succ fuel ih =>
    intro toks name pairs wc a h
    cases toks with
    | nil => simp only [parseLoopF] at h; exact PResult.noConfusion h
    | cons arg rest =>
      by_cases hig : isIgnored arg = true
      · simp only [parseLoopF, hig, if_pos] at h
        obtain ⟨x, xs, n2, p2, f2, hsf, h1, h2, h3, h4⟩ := ih _ _ _ _ _ h
        exact ⟨x, xs, n2, p2, f2, hsf.trans (List.suffix_cons arg rest), h1, h2, h3, h4⟩
      · by_cases hfl : isFlag arg = true
        · cases heq : eqSplit (trimLeftChar '-' arg) with
          | none =>
            simp [parseLoopF, hig, hfl, heq, show trimSpace "" = "" from rfl,
              show flagValues "" rest = some ([], 0) from rfl, isFlag_opt_ne hfl] at h
            obtain ⟨x, xs, n2, p2, f2, hsf, h1, h2, h3, h4⟩ := ih _ _ _ _ _ h
            exact ⟨x, xs, n2, p2, f2, hsf.trans (List.suffix_cons arg rest), h1, h2, h3, h4⟩
          | some kv =>
            obtain ⟨k, v⟩ := kv
            simp only [parseLoopF, hig, hfl, heq] at h
            simp at h
            cases hfv : flagValues (trimSpace v) rest with
            | none => rw [hfv] at h; exact PResult.noConfusion h
            | some vc =>
              obtain ⟨values, c⟩ := vc
              rw [hfv] at h
              simp only at h
              split at h
              · simp only [PResult.err.injEq] at h
                exact absurd h.2 (missingMsg_ne_misplacedMsg _)
              · split at h
                · obtain ⟨x, xs, n2, p2, f2, hsf, h1, h2, h3, h4⟩ := ih _ _ _ _ _ h
                  exact ⟨x, xs, n2, p2, f2, hsf.trans ((List.drop_suffix c rest).trans
                    (List.suffix_cons arg rest)), h1, h2, h3, h4⟩
                · obtain ⟨x, xs, n2, p2, f2, hsf, h1, h2, h3, h4⟩ := ih _ _ _ _ _ h
                  exact ⟨x, xs, n2, p2, f2, hsf.trans ((List.drop_suffix c rest).trans
                    (List.suffix_cons arg rest)), h1, h2, h3, h4⟩
        · by_cases hwc : wc = true
          · subst hwc
            cases rest with
            | nil =>
              simp [parseLoopF, hig, hfl] at h
            | cons b bs =>
              simp only [parseLoopF, hig, hfl] at h
              simp at h
              cases hsub : parseLoopF fuel (arg :: b :: bs) "" [] false with
              | ok sub => rw [hsub] at h; exact PResult.noConfusion h
              | err a0 msg =>
                rw [hsub] at h
                simp only [PResult.err.injEq] at h
                obtain ⟨x, xs, n2, p2, f2, hsf, h1, h2, h3, h4⟩ :=
                  ih _ _ _ _ _ (h.2 ▸ hsub)
                exact ⟨x, xs, n2, p2, f2, hsf, h1, h2, h3, h4⟩
              | oob => rw [hsub] at h; exact PResult.noConfusion h
              | fuelOut => rw [hsub] at h; exact PResult.noConfusion h
          · have hwc2 : wc = false := by simpa using hwc
            subst hwc2
            simp only [parseLoopF, hig, hfl] at h
            simp at h
            split at h
            · obtain ⟨x, xs, n2, p2, f2, hsf, h1, h2, h3, h4⟩ := ih _ _ _ _ _ h
              exact ⟨x, xs, n2, p2, f2, hsf.trans (List.suffix_cons arg rest), h1, h2, h3, h4⟩
            · rename_i hpne
              have hfl2 : isFlag arg = false := by simpa using hfl
              have hig2 : isIgnored arg = false := by simpa using hig
              have hpne2 : pairs ≠ [] := by
                intro hp0
                subst hp0
                simp at hpne
              refine ⟨arg, rest, name, pairs, fuel, List.suffix_refl _, hfl2, hig2, hpne2, ?_⟩
              simp [parseLoopF, hig2, hfl2, hpne2]

theorem parseLoopF_no_fuelOut : ∀ (fuel : Nat) (toks : List String) (name : String)
    (pairs : List (String × List String)) (wc : Bool),
    3 * toks.length + (if wc then 2 else 0) < fuel →
    parseLoopF fuel toks name pairs wc ≠ .fuelOut := by
  intro fuel
  induction fuel with
  | zero => intro toks name pairs wc hb; omega
  | succ fuel ih =>
    intro toks name pairs wc hb h
    cases toks with
    | nil => simp only [parseLoopF] at h; exact PResult.noConfusion h
    | cons arg rest =>
      simp only [List.length_cons] at hb
      by_cases hig : isIgnored arg = true
      · simp only [parseLoopF, hig, if_pos] at h
        exact ih _ _ _ _ (by omega) h
      · by_cases hfl : isFlag arg = true
        · cases heq : eqSplit (trimLeftChar '-' arg) with
          | none =>
            simp [parseLoopF, hig, hfl, heq, show trimSpace "" = "" from rfl,
              show flagValues "" rest = some ([], 0) from rfl, isFlag_opt_ne hfl] at h
            exact ih _ _ _ _ (by omega) h
          | some kv =>
            obtain ⟨k, v⟩ := kv
            simp only [parseLoopF, hig, hfl, heq] at h
            simp at h
            cases hfv : flagValues (trimSpace v) rest with
            | none => rw [hfv] at h; exact PResult.noConfusion h
            | some vc =>
              obtain ⟨values, c⟩ := vc
              rw [hfv] at h
              simp only at h
              split at h
              · exact PResult.noConfusion h
              · split at h
                · have hlen := List.length_drop c rest
                  exact ih _ _ _ _ (by omega) h
                · have hlen := List.length_drop c rest
                  exact ih _ _ _ _ (by omega) h
        · by_cases hwc : wc = true
          · subst hwc
            cases rest with
            | nil =>
              simp only [parseLoopF, hig, hfl] at h
              simp at h
            | cons b bs =>
              simp only [parseLoopF, hig, hfl] at h
              simp at h
              simp only [List.length_cons] at hb
              cases hsub : parseLoopF fuel (arg :: b :: bs) "" [] false with
              | ok sub => rw [hsub] at h; exact PResult.noConfusion h
              | err a0 msg => rw [hsub] at h; exact PResult.noConfusion h
              | oob => rw [hsub] at h; exact PResult.noConfusion h
              | fuelOut =>
                exact absurd hsub (ih _ _ _ _ (by simp at hb ⊢; omega))
          · have hwc2 : wc = false := by simpa using hwc
            subst hwc2
            simp only [parseLoopF, hig, hfl] at h
            simp at h
            split at h
            · exact ih _ _ _ _ (by simp at hb ⊢; omega) h
            · exact PResult.noConfusion h

theorem parseArgs_no_fuelOut (toks : List String) : parseArgs toks ≠ .fuelOut := by
  apply parseLoopF_no_fuelOut
  simp [enoughFuel]

theorem multi_token_list_step (fuel : Nat) (tok : String) (rest : List String) (name : String)
    (pairs : List (String × List String)) (wc : Bool) (k v : String)
    (elems : List String) (c : Nat)
    (hfl : isFlag tok = true)
    (heq : eqSplit (trimLeftChar '-' tok) = some (k, v))
    (hk : trimSpace k ≠ "")
    (hl : isList (trimSpace v) = true) (hle : isListEnd (trimSpace v) = false)
    (hscan : scanList rest = some (elems, c)) :
    parseLoopF (fuel + 1) (tok :: rest) name pairs wc =
      parseLoopF fuel (rest.drop c) name
        (setPair (trimSpace k)
          (splitOnChar ' ' (trimSuffixChar ']' (trimPrefixChar '['
            (trimSpace (joinSpace
              ((if trimSpace (trimLeftChar '[' (trimSpace v)) != "" then
                  [trimSpace (trimLeftChar '[' (trimSpace v))] else []) ++ elems))))))
          pairs) wc := by
  have hfv : flagValues (trimSpace v) rest = some
      (splitOnChar ' ' (trimSuffixChar ']' (trimPrefixChar '['
        (trimSpace (joinSpace
          ((if trimSpace (trimLeftChar '[' (trimSpace v)) != "" then
              [trimSpace (trimLeftChar '[' (trimSpace v))] else []) ++ elems))))), c) := by
    rw [flagValues, if_pos hl, if_neg (by simp [hle]), hscan]
  have hne := splitOnChar_ne_nil ' ' (trimSuffixChar ']' (trimPrefixChar '['
    (trimSpace (joinSpace
      ((if trimSpace (trimLeftChar '[' (trimSpace v)) != "" then
          [trimSpace (trimLeftChar '[' (trimSpace v))] else []) ++ elems)))))
  simp [parseLoopF, hfl, isFlag_isIgnored_false hfl, heq, hfv, hk, hne]
  intro h0
  exact absurd h0 (by simpa using hne)

theorem splitListOn_not_mem (c : Char) (l : List Char) (h : c ∉ l) :
    splitListOn c l = [l] := by
  induction l with
  | nil => rfl
  | cons a as ih =>
    simp only [List.mem_cons, not_or] at h
    have ha : (a == c) = false := by
      simp only [beq_eq_false_iff_ne, ne_eq]
      exact fun he => h.1 he.symm
    rw [splitListOn, ha]
    simp only [Bool.false_eq_true, if_false]
    rw [ih h.2]

theorem splitListOn_append_sep (c : Char) (l1 l2 : List Char) (h : c ∉ l1) :
    splitListOn c (l1 ++ c :: l2) = l1 :: splitListOn c l2 := by
  induction l1 with
  | nil => simp [splitListOn]
  | cons a as ih =>
    simp only [List.mem_cons, not_or] at h
    have ha : (a == c) = false := by
      simp only [beq_eq_false_iff_ne, ne_eq]
      exact fun he => h.1 he.symm
    rw [List.cons_append, splitListOn, ha]
    simp only [Bool.false_eq_true, if_false]
    rw [ih h.2]

theorem findIdx_eq_of_append (kd vd : List Char) (h : '=' ∉ kd) :
    (kd ++ '=' :: vd).findIdx? (· == '=') = some kd.length := by
  induction kd with
  | nil => simp [List.findIdx?_cons]
  | cons a as ih =>
    simp only [List.mem_cons, not_or] at h
    have ha : (a == '=') = false := by
      simp only [beq_eq_false_iff_ne, ne_eq]
      exact fun he => h.1 he.symm
    rw [List.cons_append, List.findIdx?_cons, ha]
    simp only [Bool.false_eq_true, if_false]
    rw [List.findIdx?_succ, ih h.2]
    simp

theorem eqSplit_append (kd vd : List Char) (h : '=' ∉ kd) :
    eqSplit ⟨kd ++ '=' :: vd⟩ = some (⟨kd⟩, ⟨vd⟩) := by
  have h1 : List.take kd.length (kd ++ '=' :: vd) = kd := List.take_left kd _
  have h2 : List.drop (kd.length + 1) (kd ++ '=' :: vd) = vd := by
    rw [show kd ++ '=' :: vd = (kd ++ ['=']) ++ vd by simp,
      show kd.length + 1 = (kd ++ ['=']).length by simp, List.drop_left]
  rw [eqSplit]
  simp only [findIdx_eq_of_append kd vd h, h1, h2]

theorem flagValues_empty (rest : List String) : flagValues "" rest = some ([], 0) := rfl

theorem flagValues_ne_nil (value : String) (rest : List String) (values : List String)
    (c : Nat) (hv : value ≠ "") (h : flagValues value rest = some (values, c)) :
    values ≠ [] := by
  by_cases hl : isList value = true
  · by_cases hle : isListEnd value = true
    · unfold flagValues at h
      rw [if_pos hl, if_pos hle] at h
      simp only [Option.some.injEq, Prod.mk.injEq] at h
      rw [← h.1]
      exact splitOnChar_ne_nil _ _
    · unfold flagValues at h
      rw [if_pos hl, if_neg hle] at h
      cases hs : scanList rest with
      | none => rw [hs] at h; exact absurd h (by simp)
      | some lc =>
        obtain ⟨l0, c0⟩ := lc
        rw [hs] at h
        simp only [Option.some.injEq, Prod.mk.injEq] at h
        rw [← h.1]
        exact splitOnChar_ne_nil _ _
  · unfold flagValues at h
    rw [if_neg hl, if_pos (by simpa using hv)] at h
    simp only [Option.some.injEq, Prod.mk.injEq] at h
    rw [← h.1]
    simp

theorem flagValues_nil_iff (value : String) (rest : List String) (values : List String)
    (c : Nat) (h : flagValues value rest = some (values, c)) :
    values = [] ↔ value = "" := by
  constructor
  · intro hv
    by_contra hne
    exact flagValues_ne_nil value rest values c hne h hv
  · intro hv
    subst hv
    rw [flagValues_empty] at h
    simp only [Option.some.injEq, Prod.mk.injEq] at h
    exact h.1.symm

theorem flagsOnly (toks : List String) : ∀ (fuel : Nat) (pairs : List (String × List String)),
    toks.all simpleFlag = true → toks.length < fuel →
    ∃ pairs2, parseLoopF fuel toks "" pairs false = .ok (.mk "" none "" (some pairs2)) := by
  induction toks with
  | nil =>
    intro fuel pairs _ hf
    cases fuel with
    | zero => omega
    | succ f => exact ⟨pairs, by simp [parseLoopF]⟩
  | cons t ts ih =>
    intro fuel pairs hall hf
    cases fuel with
    | zero => omega
    | succ f =>
      simp only [List.all_cons, Bool.and_eq_true] at hall
      obtain ⟨ht, hts⟩ := hall
      simp only [simpleFlag, Bool.and_eq_true] at ht
      obtain ⟨hflag, hrest⟩ := ht
      have hig := isFlag_isIgnored_false hflag
      cases heq : eqSplit (trimLeftChar '-' t) with
      | none =>
        have hopt := isFlag_opt_ne hflag
        have hone : parseLoopF (f + 1) (t :: ts) "" pairs false =
            parseLoopF f ts "" (setPair (trimLeftChar '-' t) ["true"] pairs) false := by
          simp [parseLoopF, hig, hflag, heq, hopt, show trimSpace "" = "" from rfl,
            show flagValues "" ts = some ([], 0) from rfl]
        rw [hone]
        exact ih f _ hts (by simpa using Nat.lt_of_succ_lt_succ hf)
      | some kv =>
        obtain ⟨k, v⟩ := kv
        rw [heq] at hrest
        simp only [Bool.and_eq_true, bne_iff_ne, ne_eq, Bool.not_eq_true] at hrest
        obtain ⟨⟨hk, hv⟩, hnl⟩ := hrest
        have hfv : flagValues (trimSpace v) ts = some ([trimSpace v], 0) := by
          rw [flagValues, if_neg (by simpa using hnl), if_pos (by simpa using hv)]
        have hone : parseLoopF (f + 1) (t :: ts) "" pairs false =
            parseLoopF f ts "" (setPair (trimSpace k) [trimSpace v] pairs) false := by
          simp [parseLoopF, hig, hflag, heq, hfv, hk, show isList (trimSpace v) = false
            from by simpa using hnl]
        rw [hone]
        exact ih f _ hts (by simpa using Nat.lt_of_succ_lt_succ hf)

theorem comma_join_not_split (name k v1 v2 : String)
    (hn1 : isFlag name = false) (hn2 : isIgnored name = false) (hnsp : ' ' ∉ name.data)
    (hk1 : k.data ≠ []) (hk2 : startsWithChar '-' k = false) (hk3 : '=' ∉ k.data)
    (hk4 : trimSpace k = k) (hksp : ' ' ∉ k.data)
    (hv4 : trimSpace (v1 ++ "," ++ v2) = v1 ++ "," ++ v2)
    (hvl : startsWithChar '[' (v1 ++ "," ++ v2) = false)
    (hvsp : ' ' ∉ (v1 ++ "," ++ v2).data) :
    Parse (name ++ " " ++ "--" ++ k ++ "=" ++ v1 ++ "," ++ v2) =
      .ok (.mk name none "" (some [(k, [v1 ++ "," ++ v2])])) := by
  have hvd : (v1 ++ "," ++ v2).data = v1.data ++ ',' :: v2.data := by
    simp [str_data_append, show (",").data = [','] from rfl]
  have hdata : (name ++ " " ++ "--" ++ k ++ "=" ++ v1 ++ "," ++ v2).data =
      name.data ++ ' ' :: ('-' :: '-' :: (k.data ++ '=' :: (v1.data ++ ',' :: v2.data))) := by
    simp [str_data_append, show (" ").data = [' '] from rfl,
      show ("--").data = ['-', '-'] from rfl, show ("=").data = ['='] from rfl,
      show (",").data = [','] from rfl]
  have hv1sp : ' ' ∉ v1.data := fun hx => hvsp (by rw [hvd]; simp [hx])
  have hv2sp : ' ' ∉ v2.data := fun hx => hvsp (by rw [hvd]; simp [hx])
  have htoknosp : ' ' ∉ ('-' :: '-' :: (k.data ++ '=' :: (v1.data ++ ',' :: v2.data))) := by
    simp only [List.mem_cons, List.mem_append, not_or]
    exact ⟨by decide, by decide, hksp, by decide, hv1sp, by decide, hv2sp⟩
  have hsplit : splitOnChar ' ' (name ++ " " ++ "--" ++ k ++ "=" ++ v1 ++ "," ++ v2) =
      [name, ⟨'-' :: '-' :: (k.data ++ '=' :: (v1.data ++ ',' :: v2.data))⟩] := by
    rw [splitOnChar, hdata, splitListOn_append_sep _ _ _ hnsp,
      splitListOn_not_mem _ _ htoknosp]
    simp
  obtain ⟨c, ks, hcons⟩ : ∃ c ks, k.data = c :: ks := by
    cases hkk : k.data with
    | nil => exact absurd hkk hk1
    | cons c ks => exact ⟨c, ks, rfl⟩
  have hcdash : (c == '-') = false := by
    have h0 := hk2
    simp only [startsWithChar, hcons] at h0
    exact h0
  have htl : trimLeftChar '-'
      (⟨'-' :: '-' :: (k.data ++ '=' :: (v1.data ++ ',' :: v2.data))⟩ : String) =
      ⟨k.data ++ '=' :: (v1.data ++ ',' :: v2.data)⟩ := by
    rw [trimLeftChar]
    simp only [List.dropWhile_cons, show ('-' == '-') = true from rfl, if_true, hcons,
      List.cons_append, hcdash, Bool.false_eq_true, if_false]
  have hkne : k ≠ "" := by
    intro hh
    rw [hh] at hcons
    exact List.noConfusion hcons
  have hvne : (v1 ++ "," ++ v2) ≠ "" := by
    intro hh
    have := congrArg String.data hh
    rw [hvd] at this
    simp at this
  have heq2 : eqSplit (⟨k.data ++ '=' :: (v1.data ++ ',' :: v2.data)⟩ : String) =
      some (k, v1 ++ "," ++ v2) := by
    rw [eqSplit_append _ _ hk3]
    have hv : (⟨v1.data ++ ',' :: v2.data⟩ : String) = v1 ++ "," ++ v2 := by
      rw [← hvd]
    rw [hv]
  have hfl : isFlag (⟨'-' :: '-' :: (k.data ++ '=' :: (v1.data ++ ',' :: v2.data))⟩ :
      String) = true := by
    rw [isFlag, htl]
    have h2 : (⟨k.data ++ '=' :: (v1.data ++ ',' :: v2.data)⟩ : String) ≠ "" := by
      intro hh
      have h3 := congrArg String.data hh
      simp [hcons] at h3
    simp [startsWithChar, h2]
  have hfv : flagValues (v1 ++ "," ++ v2) [] = some ([v1 ++ "," ++ v2], 0) := by
    rw [flagValues, if_neg (by simp [isList, hvl]), if_pos (by simpa using hvne)]
  have hpos : 0 < (name ++ " " ++ "--" ++ k ++ "=" ++ v1 ++ "," ++ v2).length := by
    rw [show (name ++ " " ++ "--" ++ k ++ "=" ++ v1 ++ "," ++ v2).length =
      (name ++ " " ++ "--" ++ k ++ "=" ++ v1 ++ "," ++ v2).data.length from rfl, hdata]
    simp
  have hne0 : ((name ++ " " ++ "--" ++ k ++ "=" ++ v1 ++ "," ++ v2).length == 0) = false := by
    simp only [beq_eq_false_iff_ne, ne_eq]
    omega
  have hstep1 : Parse (name ++ " " ++ "--" ++ k ++ "=" ++ v1 ++ "," ++ v2) =
      parseArgs [name, ⟨'-' :: '-' :: (k.data ++ '=' :: (v1.data ++ ',' :: v2.data))⟩] := by
    rw [Parse, hne0]
    simp only [Bool.false_eq_true, if_false]
    rw [hsplit]
  have hstep2 : ∀ fuel : Nat, parseLoopF (fuel + 1)
      [name, ⟨'-' :: '-' :: (k.data ++ '=' :: (v1.data ++ ',' :: v2.data))⟩] "" [] false =
      parseLoopF fuel [⟨'-' :: '-' :: (k.data ++ '=' :: (v1.data ++ ',' :: v2.data))⟩]
        name [] true := by
    intro fuel
    simp [parseLoopF, hn1, hn2]
  have hstep3 : ∀ fuel : Nat, parseLoopF (fuel + 1)
      [⟨'-' :: '-' :: (k.data ++ '=' :: (v1.data ++ ',' :: v2.data))⟩] name [] true =
      parseLoopF fuel [] name [(k, [v1 ++ "," ++ v2])] true := by
    intro fuel
    simp [parseLoopF, hfl, isFlag_isIgnored_false hfl, htl, heq2, hk4, hv4, hfv, hkne,
      setPair]
  have hstep4 : ∀ (fuel : Nat) (ps : List (String × List String)),
      parseLoopF (fuel + 1) [] name ps true = .ok (.mk name none "" (some ps)) := by
    intro fuel ps
    simp [parseLoopF]
  rw [hstep1, parseArgs,
    show enoughFuel [name, (⟨'-' :: '-' :: (k.data ++ '=' :: (v1.data ++ ',' :: v2.data))⟩ :
      String)] = 8 + 1 from rfl,
    hstep2 8, show (8 : Nat) = 7 + 1 from rfl, hstep3 7, show (7 : Nat) = 6 + 1 from rfl,
    hstep4 6]

end Cmdkit

namespace Cmdkit

/-! ### Claim theorems -/

/-- Claim C1: the claim states that `Parse` always completes with a value or a
returned error and in particular never reads past the end of the token sequence
while collecting a multi-token bracketed list.  The code checks
`isListEnd(args[i+1])` without a bounds check after the collection loop, so an
input whose bracketed list is never closed makes Go index out of range: the
model evaluates to the runtime-panic outcome `oob`, not to `ok` or `err`. -/
theorem parse_unclosed_list_panics : Parse "p --dirs=[drum flag" = .oob := by decide

/-- Claim C2 (amended): for a name followed by `--k=v1,v2`, parsing succeeds with
`Sub` nil, but the unbracketed comma-joined value is stored as the single
element `"v1,v2"`: commas are only split inside a single-token bracketed list,
never in a plain `key=value`. -/
theorem comma_value_kept_whole (name k v1 v2 : String)
    (hn1 : isFlag name = false) (hn2 : isIgnored name = false) (hnsp : ' ' ∉ name.data)
    (hk1 : k.data ≠ []) (hk2 : startsWithChar '-' k = false) (hk3 : '=' ∉ k.data)
    (hk4 : trimSpace k = k) (hksp : ' ' ∉ k.data)
    (hv4 : trimSpace (v1 ++ "," ++ v2) = v1 ++ "," ++ v2)
    (hvl : startsWithChar '[' (v1 ++ "," ++ v2) = false)
    (hvsp : ' ' ∉ (v1 ++ "," ++ v2).data) :
    Parse (name ++ " " ++ "--" ++ k ++ "=" ++ v1 ++ "," ++ v2) =
      .ok (.mk name none "" (some [(k, [v1 ++ "," ++ v2])])) :=
  comma_join_not_split name k v1 v2 hn1 hn2 hnsp hk1 hk2 hk3 hk4 hksp hv4 hvl hvsp

theorem comma_value_kept_whole_witness :
    (isFlag "a" = false ∧ isIgnored "a" = false ∧ ("k" : String).data ≠ [] ∧
      startsWithChar '-' "k" = false ∧ trimSpace "k" = "k" ∧
      trimSpace ("v1" ++ "," ++ "v2") = "v1" ++ "," ++ "v2" ∧
      startsWithChar '[' ("v1" ++ "," ++ "v2") = false) ∧
    Parse ("a" ++ " " ++ "--" ++ "k" ++ "=" ++ "v1" ++ "," ++ "v2") =
      .ok (.mk "a" none "" (some [("k", ["v1" ++ "," ++ "v2"])])) :=
  ⟨⟨by decide, by decide, by decide, by decide, by decide, by decide, by decide⟩,
   comma_value_kept_whole "a" "k" "v1" "v2" (by decide) (by decide) (by decide) (by decide)
     (by decide) (by decide) (by decide) (by decide) (by decide) (by decide) (by decide)⟩

/-- Claim C2 as stated is false: `Parse "a --k=v1,v2"` stores `Pairs["k"]` as the
one-element sequence `["v1,v2"]`, not the two-element sequence `["v1","v2"]`. -/
theorem comma_value_counterexample :
    Parse "a --k=v1,v2" = .ok (.mk "a" none "" (some [("k", ["v1,v2"])])) ∧
    lookupPair "k" [("k", ["v1,v2"])] ≠ some ["v1", "v2"] := ⟨by decide, by decide⟩

/-- Claim C3 (amended): a multi-token bracketed list is collected, re-joined with
single spaces, stripped of at most one stray leading `[` and one trailing `]`,
and re-split on single spaces only.  Space-separated elements therefore come out
as individual values, but comma separators inside the brackets are left attached
to their elements (no comma normalization happens in this branch). -/
theorem list_join_resplit_on_spaces (fuel : Nat) (tok : String) (rest : List String)
    (name : String) (pairs : List (String × List String)) (wc : Bool) (k v : String)
    (elems : List String) (c : Nat)
    (hfl : isFlag tok = true)
    (heq : eqSplit (trimLeftChar '-' tok) = some (k, v))
    (hk : trimSpace k ≠ "")
    (hl : isList (trimSpace v) = true) (hle : isListEnd (trimSpace v) = false)
    (hscan : scanList rest = some (elems, c)) :
    parseLoopF (fuel + 1) (tok :: rest) name pairs wc =
      parseLoopF fuel (rest.drop c) name
        (setPair (trimSpace k)
          (splitOnChar ' ' (trimSuffixChar ']' (trimPrefixChar '['
            (trimSpace (joinSpace
              ((if trimSpace (trimLeftChar '[' (trimSpace v)) != "" then
                  [trimSpace (trimLeftChar '[' (trimSpace v))] else []) ++ elems))))))
          pairs) wc :=
  multi_token_list_step fuel tok rest name pairs wc k v elems c hfl heq hk hl hle hscan

theorem list_join_resplit_on_spaces_witness :
    (isFlag "--dirs=[drum" = true ∧
      eqSplit (trimLeftChar '-' "--dirs=[drum") = some ("dirs", "[drum") ∧
      trimSpace "dirs" ≠ "" ∧ isList (trimSpace "[drum") = true ∧
      isListEnd (trimSpace "[drum") = false ∧
      scanList ["flag", "kick]"] = some (["flag", "kick"], 2)) ∧
    parseLoopF 7 ["--dirs=[drum", "flag", "kick]"] "p" [] true =
      parseLoopF 6 [] "p" [("dirs", ["drum", "flag", "kick"])] true ∧
    Parse "p --k=[a, b c]" = .ok (.mk "p" none "" (some [("k", ["a,", "b", "c"])])) :=
  ⟨⟨by decide, by decide, by decide, by decide, by decide, by decide⟩,
   list_join_resplit_on_spaces 6 "--dirs=[drum" ["flag", "kick]"] "p" [] true
     "dirs" "[drum" ["flag", "kick"] 2 (by decide) (by decide) (by decide) (by decide)
     (by decide) (by decide),
   by decide⟩

/-- Claim C3 as stated is false: the two-pass join-then-resplit does not
normalize comma-separated multi-token lists; `Parse "p --k=[a, b]"` keeps the
comma attached, giving `["a,", "b"]` rather than the clean `["a", "b"]`. -/
theorem comma_list_counterexample :
    Parse "p --k=[a, b]" = .ok (.mk "p" none "" (some [("k", ["a,", "b"])])) ∧
    lookupPair "k" [("k", ["a,", "b"])] ≠ some ["a", "b"] := ⟨by decide, by decide⟩

end Cmdkit

namespace Cmdkit

/-- Claim C4: the MisplacedFlags error ("flags must come after command name")
fires exactly at a state where a non-flag, non-ignorable token is met while no
command name is set at that level (`withCommand = false`) and `Pairs` at that
level is already non-empty: (1) at any such state the step errs immediately;
(2) whenever the parse returns that error, some reachable state (a suffix of the
tokens, at some nesting level) satisfied exactly that condition; (3) with empty
`Pairs` the same token is taken as the command name instead, with no error; and
(4) an input consisting only of well-formed flags parses successfully with an
empty `Name`. -/
theorem misplacedFlags_iff :
    (∀ (fuel : Nat) (arg : String) (rest : List String) (name : String)
        (pairs : List (String × List String)), isFlag arg = false → isIgnored arg = false →
        pairs ≠ [] → parseLoopF (fuel + 1) (arg :: rest) name pairs false =
          .err (.mk name none "" (some pairs)) misplacedMsg) ∧
    (∀ (fuel : Nat) (toks : List String) (name : String)
        (pairs : List (String × List String)) (wc : Bool) (a : Argv),
        parseLoopF fuel toks name pairs wc = .err a misplacedMsg →
        ∃ (arg : String) (rest : List String) (name2 : String)
          (pairs2 : List (String × List String)) (fuel2 : Nat),
          (arg :: rest).IsSuffix toks ∧ isFlag arg = false ∧ isIgnored arg = false ∧
          pairs2 ≠ [] ∧ parseLoopF (fuel2 + 1) (arg :: rest) name2 pairs2 false =
            .err (.mk name2 none "" (some pairs2)) misplacedMsg) ∧
    (∀ (fuel : Nat) (arg : String) (rest : List String) (name : String),
        isFlag arg = false → isIgnored arg = false →
        parseLoopF (fuel + 1) (arg :: rest) name [] false =
          parseLoopF fuel rest arg [] true) ∧
    (∀ (toks : List String) (fuel : Nat) (pairs : List (String × List String)),
        toks.all simpleFlag = true → toks.length < fuel →
        ∃ pairs2, parseLoopF fuel toks "" pairs false =
          .ok (.mk "" none "" (some pairs2))) := by
  refine ⟨?_, misplaced_origin, ?_, flagsOnly⟩
  · intro fuel arg rest name pairs h1 h2 h3
    simp [parseLoopF, h1, h2, h3]
  · intro fuel arg rest name h1 h2
    simp [parseLoopF, h1, h2]

theorem misplacedFlags_iff_witness :
    (isFlag "name" = false ∧ isIgnored "name" = false ∧
      ([("x", ["1"])] : List (String × List String)) ≠ []) ∧
    parseLoopF 1 ["name"] "" [("x", ["1"])] false =
      .err (.mk "" none "" (some [("x", ["1"])])) misplacedMsg ∧
    Parse "--x=1 name" = .err (.mk "" none "" (some [("x", ["1"])])) misplacedMsg ∧
    Parse "--x=1 -h" = .ok (.mk "" none "" (some [("x", ["1"]), ("h", ["true"])])) :=
  ⟨⟨by decide, by decide, by decide⟩,
   misplacedFlags_iff.1 0 "name" [] "" [("x", ["1"])] (by decide) (by decide) (by decide),
   by decide, by decide⟩

/-- Claim C5: once `Name` is set (`withCommand = true`), a non-flag token that is
the only token left in the slice currently examined becomes the node's `Text`
verbatim, `Sub` stays nil, and the parse returns at once; on the spec's example
the nested node gets `Name = "push"`, `Text = "git@ghu.com/fla.git"`, no `Sub`. -/
theorem single_trailing_leaf :
    (∀ (fuel : Nat) (arg name : String) (pairs : List (String × List String)),
        isFlag arg = false → isIgnored arg = false →
        parseLoopF (fuel + 1) [arg] name pairs true =
          .ok (.mk name none arg (some pairs))) ∧
    Parse "example --rack=20 push git@ghu.com/fla.git" =
      .ok (.mk "example" (some (.mk "push" none "git@ghu.com/fla.git" (some [])))
        "push git@ghu.com/fla.git" (some [("rack", ["20"])])) := by
  constructor
  · intro fuel arg name pairs h1 h2
    simp [parseLoopF, h1, h2]
  · decide

theorem single_trailing_leaf_witness :
    (isFlag "git@ghu.com/fla.git" = false ∧ isIgnored "git@ghu.com/fla.git" = false) ∧
    parseLoopF 1 ["git@ghu.com/fla.git"] "push" [] true =
      .ok (.mk "push" none "git@ghu.com/fla.git" (some [])) :=
  ⟨⟨by decide, by decide⟩,
   single_trailing_leaf.1 0 "git@ghu.com/fla.git" "push" [] (by decide) (by decide)⟩

/-- Claim C6: once `Name` is set, a non-flag token with at least one further
token remaining makes the parse recursively parse the whole remainder on a
fresh node, attach the child as `Sub`, set `Text` to the space-joined remainder
of the original slice, and return immediately (errors of the child propagate);
moreover in any successful parse `Sub` is non-nil exactly when such a recursive
branch occurred: a non-nil `Sub` always is the successful parse of a non-empty
suffix of the tokens whose space-join is the node's `Text`. -/
theorem branch_on_bare_token :
    (∀ (fuel : Nat) (arg : String) (rest : List String) (name : String)
        (pairs : List (String × List String)),
        isFlag arg = false → isIgnored arg = false → rest ≠ [] →
        parseLoopF (fuel + 1) (arg :: rest) name pairs true =
          match parseLoopF fuel (arg :: rest) "" [] false with
          | .ok sub => .ok (.mk name (some sub) (joinSpace (arg :: rest)) (some pairs))
          | .err _ msg => .err (.mk name none "" (some pairs)) msg
          | .oob => .oob
          | .fuelOut => .fuelOut) ∧
    (∀ (fuel : Nat) (toks : List String) (name : String)
        (pairs : List (String × List String)) (wc : Bool) (r : Argv),
        parseLoopF fuel toks name pairs wc = .ok r →
        r.Sub = none ∨ ∃ sub rem fuel2, r.Sub = some sub ∧ rem ≠ [] ∧ rem.IsSuffix toks ∧
          parseLoopF fuel2 rem "" [] false = .ok sub ∧ r.Text = joinSpace rem) := by
  refine ⟨?_, sub_only_from_branch⟩
  · intro fuel arg rest name pairs h1 h2 h3
    cases hsub : parseLoopF fuel (arg :: rest) "" [] false <;>
      simp [parseLoopF, h1, h2, h3, hsub]

theorem branch_on_bare_token_witness :
    (isFlag "b" = false ∧ isIgnored "b" = false ∧ (["c"] : List String) ≠ []) ∧
    parseLoopF 7 ["b", "c"] "a" [] true =
      .ok (.mk "a" (some (.mk "b" none "c" (some []))) "b c" (some [])) :=
  ⟨⟨by decide, by decide, by decide⟩, by
    rw [branch_on_bare_token.1 6 "b" ["c"] "a" [] (by decide) (by decide) (by decide)]
    decide⟩

/-- Claim C7: a bracketed list opened in one flag token, spanning space-separated
tokens and closed by a token ending in `]`, parses to the elements in encounter
order with the brackets removed. -/
theorem bracket_list_spaces :
    Parse "p --dirs=[drum flag kick]" =
      .ok (.mk "p" none "" (some [("dirs", ["drum", "flag", "kick"])])) ∧
    lookupPair "dirs" [("dirs", ["drum", "flag", "kick"])] =
      some ["drum", "flag", "kick"] := ⟨by decide, by decide⟩

end Cmdkit

namespace Cmdkit

/-- Claim C8: a flag token whose stripped content has a non-empty key, an `=`,
and an empty value part fails with the MissingFlagValue error; and the collected
value sequence of a flag is empty exactly when the part after `=` is empty, so
the guard in front of the store means every stored `key=value` sequence is
non-empty. -/
theorem missing_value_iff :
    (∀ (fuel : Nat) (tok : String) (rest : List String) (name : String)
        (pairs : List (String × List String)) (wc : Bool) (k v : String),
        isFlag tok = true → eqSplit (trimLeftChar '-' tok) = some (k, v) →
        trimSpace k ≠ "" → trimSpace v = "" →
        parseLoopF (fuel + 1) (tok :: rest) name pairs wc =
          .err (.mk name none "" (some pairs)) (missingMsg (trimLeftChar '-' tok))) ∧
    (∀ (value : String) (rest : List String) (values : List String) (c : Nat),
        flagValues value rest = some (values, c) → (values = [] ↔ value = "")) := by
  refine ⟨?_, flagValues_nil_iff⟩
  · intro fuel tok rest name pairs wc k v h he hk hv
    simp [parseLoopF, h, isFlag_isIgnored_false h, he, hk, hv, flagValues, isList,
      startsWithChar]

theorem missing_value_iff_witness :
    (isFlag "--k=" = true ∧ eqSplit (trimLeftChar '-' "--k=") = some ("k", "") ∧
      trimSpace "k" ≠ "" ∧ trimSpace "" = "") ∧
    parseLoopF 1 ["--k="] "a" [] true =
      .err (.mk "a" none "" (some [])) (missingMsg "k=") ∧
    Parse "a --k=" = .err (.mk "a" none "" (some []))
      "flag \"k=\" has no provided value" :=
  ⟨⟨by decide, by decide, by decide, by decide⟩,
   missing_value_iff.1 0 "--k=" [] "a" [] true "k" "" (by decide) (by decide) (by decide)
     (by decide),
   by decide⟩

/-- Claim C9: on every input where `Parse` succeeds, every node of the returned
tree has a non-`nil` `Pairs` map and every key in any node's `Pairs` maps to a
sequence with at least one string (`goodArgv`). -/
theorem parse_ok_good (s : String) (r : Argv) (h : Parse s = .ok r) :
    goodArgv r = true := by
  rw [Parse] at h
  split at h
  · exact PResult.noConfusion h
  · rw [parseArgs] at h
    exact parseLoopF_good _ _ _ _ _ _ (by decide) h

theorem parse_ok_good_witness :
    Parse "rocket  --name=wallet -rack=ball -h" =
      .ok (.mk "rocket" none ""
        (some [("name", ["wallet"]), ("rack", ["ball"]), ("h", ["true"])])) ∧
    goodArgv (.mk "rocket" none ""
      (some [("name", ["wallet"]), ("rack", ["ball"]), ("h", ["true"])])) = true :=
  ⟨by decide, parse_ok_good "rocket  --name=wallet -rack=ball -h" _ (by decide)⟩

/-- Claim C10 (amended): a flag-shaped token whose key is empty after stripping
dashes (like `-=v` or `--=`) is skipped with no effect — provided its value part
does not open a bracketed list.  When the value part starts with `[`, the
multi-token list scan still runs, consuming the following tokens (or running
past the end of the input), so the token is not side-effect free in general. -/
theorem empty_key_flag_skipped (fuel : Nat) (tok : String) (rest : List String)
    (name : String) (pairs : List (String × List String)) (wc : Bool) (k v : String)
    (hfl : isFlag tok = true)
    (heq : eqSplit (trimLeftChar '-' tok) = some (k, v))
    (hk : trimSpace k = "") (hnl : isList (trimSpace v) = false) :
    parseLoopF (fuel + 1) (tok :: rest) name pairs wc =
      parseLoopF fuel rest name pairs wc := by
  by_cases hv : trimSpace v = ""
  · simp [parseLoopF, hfl, isFlag_isIgnored_false hfl, heq, hk, hv, flagValues, isList,
      startsWithChar]
  · simp [parseLoopF, hfl, isFlag_isIgnored_false hfl, heq, hk, hv, hnl, flagValues]

theorem empty_key_flag_skipped_witness :
    (isFlag "-=v" = true ∧ eqSplit (trimLeftChar '-' "-=v") = some ("", "v") ∧
      trimSpace "" = "" ∧ isList (trimSpace "v") = false) ∧
    parseLoopF 3 ["-=v", "q"] "p" [] true = parseLoopF 2 ["q"] "p" [] true :=
  ⟨⟨by decide, by decide, by decide, by decide⟩,
   empty_key_flag_skipped 2 "-=v" ["q"] "p" [] true "" "v" (by decide) (by decide)
     (by decide) (by decide)⟩

/-- Claim C10 as stated is false for list-opening values: in
`"p -=[a b] c"` the token `-=[a` is not a pure skip — its list scan consumes the
following `b]`, so parsing does not simply continue with the next token
unchanged (the results from the two positions differ). -/
theorem empty_key_list_open_counterexample :
    Parse "p -=[a b] c" = .ok (.mk "p" none "c" (some [])) ∧
    parseLoopF 20 ["-=[a", "b]", "c"] "p" [] true ≠
      parseLoopF 20 ["b]", "c"] "p" [] true := by
  refine ⟨by decide, ?_⟩
  have h1 : parseLoopF 20 ["-=[a", "b]", "c"] "p" [] true =
      .ok (.mk "p" none "c" (some [])) := by decide
  have h2 : parseLoopF 20 ["b]", "c"] "p" [] true =
      .ok (.mk "p" (some (.mk "b]" none "c" (some []))) "b] c" (some [])) := by decide
  rw [h1, h2]
  decide

end Cmdkit
